import Mathlib

/-!
Shallow embedding of the sliding-window rate limiter and the rate-limited
WebSocket message gate (src/rate-limiter.ts and src/websocket-handler.ts).

Times are integers (milliseconds since an arbitrary epoch), matching the
JavaScript use of Date.now.  A JavaScript optional number field that is
tested for truthiness (state.blockedUntil) is modelled as an Option Int
together with the truthiness test below: a number is truthy exactly when
it is present and nonzero.
-/

/-- Configuration of the rate limiter (interface RateLimiterConfig, after
the constructor has replaced an absent blockDurationMs by 0). -/
structure RateLimiterConfig where
  maxRequests : Int
  windowMs : Int
  blockDurationMs : Int
deriving Repr, DecidableEq

/-- Per-client state (interface ClientState): the recorded request
timestamps and the optional block-expiry moment. -/
structure ClientState where
  requests : List Int
  blockedUntil : Option Int
deriving Repr, DecidableEq

/-- The state lazily created for a client on first observation:
state = \x7b requests: [] \x7d. -/
def ClientState.init : ClientState :=
  { requests := [], blockedUntil := none }

/-- Result of a check call (interface RateLimitResult).  The source leaves
the optional field blocked absent on the allow path; it is only ever used
in boolean position, so the absent case is modelled as false. -/
structure RateLimitResult where
  allowed : Bool
  remaining : Int
  resetMs : Int
  blocked : Bool := false
deriving Repr, DecidableEq

/-- JavaScript truthiness of an optional numeric field: present and
nonzero. -/
def truthyTime : Option Int → Bool
  | none => false
  | some v => v != 0

/-- state.requests.filter(ts => ts > windowStart) with
windowStart = now - windowMs. -/
def trimRequests (cfg : RateLimiterConfig) (now : Int) (requests : List Int) : List Int :=
  requests.filter fun ts => decide (now - cfg.windowMs < ts)

/-- The part of RateLimiter.check after the block handling: trim the
window, compute remaining and resetMs, then deny (possibly installing a
block) or admit (appending now). -/
def checkWindow (cfg : RateLimiterConfig) (now : Int) (st : ClientState) :
    RateLimitResult × ClientState :=
  let requests := trimRequests cfg now st.requests
  let remaining : Int := cfg.maxRequests - requests.length
  let oldestRequest : Int := requests.head?.getD now
  let resetMs : Int := max 0 (oldestRequest + cfg.windowMs - now)
  if (requests.length : Int) ≥ cfg.maxRequests then
    ({ allowed := false
       remaining := 0
       resetMs := if 0 < cfg.blockDurationMs then cfg.blockDurationMs else resetMs
       blocked := decide (0 < cfg.blockDurationMs) },
     { requests := requests
       blockedUntil :=
         if 0 < cfg.blockDurationMs then some (now + cfg.blockDurationMs)
         else st.blockedUntil })
  else
    ({ allowed := true
       remaining := remaining - 1
       resetMs := resetMs
       blocked := false },
     { requests := requests ++ [now], blockedUntil := st.blockedUntil })

/-- RateLimiter.check for one client, with the current moment passed
explicitly.  First the block test (an active truthy block denies without
touching the timestamps; a truthy expired block is cleared together with
the whole timestamp list), then the windowed decision. -/
def check (cfg : RateLimiterConfig) (now : Int) (st : ClientState) :
    RateLimitResult × ClientState :=
  if truthyTime st.blockedUntil ∧ now < st.blockedUntil.getD 0 then
    ({ allowed := false
       remaining := 0
       resetMs := st.blockedUntil.getD 0 - now
       blocked := true }, st)
  else if truthyTime st.blockedUntil then
    checkWindow cfg now { requests := [], blockedUntil := none }
  else
    checkWindow cfg now st

/-- RateLimiter.consume for a tracked client: push the current moment,
with no trimming. -/
def consume (now : Int) (st : ClientState) : ClientState :=
  { st with requests := st.requests ++ [now] }

/-- The body of RateLimiter.cleanup for one tracked client: trim the
window, clear an expired (truthy) block, and drop the entry when the
trimmed list is empty and the remaining block field is falsy. -/
def sweepClient (cfg : RateLimiterConfig) (now : Int) (st : ClientState) :
    Option ClientState :=
  let requests := trimRequests cfg now st.requests
  let blockedUntil : Option Int :=
    if truthyTime st.blockedUntil ∧ st.blockedUntil.getD 0 ≤ now then none
    else st.blockedUntil
  if requests.length = 0 ∧ truthyTime blockedUntil = false then none
  else some { requests := requests, blockedUntil := blockedUntil }

/-- RateLimiter.cleanup over the whole client map, modelled as an
association list with distinct keys. -/
def cleanup (cfg : RateLimiterConfig) (now : Int)
    (clients : List (String × ClientState)) : List (String × ClientState) :=
  clients.filterMap fun e => (sweepClient cfg now e.2).map fun s => (e.1, s)

/-- JSON values, the possible results of JSON.parse (undefined is not
among them). -/
inductive Json where
  | null
  | bool (b : Bool)
  | num (n : Int)
  | str (s : String)
  | arr (elems : List Json)
  | obj (fields : List (String × Json))

/-- Faults of the JavaScript runtime itself that are not caught by the
gate. -/
inductive JsError where
  | typeError
deriving Repr, DecidableEq

/-- JavaScript property read message.type on a parsed JSON value: reading
a property of null throws a TypeError; objects look the key up; every
other value yields undefined (modelled as none). -/
def getField : Json → String → Except JsError (Option Json)
  | .null, _ => .error .typeError
  | .obj fields, k => .ok (fields.lookup k)
  | _, _ => .ok none

/-- The observable outcome of one handleMessage call. -/
inductive Outcome where
  | rateLimited
  | invalidJson
  | missingType
  | unknownType (t : String)
  | handlerError (t : String)
  | handled (t : String)
deriving Repr, DecidableEq

/-- A registered message handler, abstracted to its control effect: it
either completes or throws. -/
def MessageHandler := Json → Except String Unit

/-- RateLimitedWebSocketServer.handleMessage for one client, with the
ambient JSON.parse passed as a function (error means a thrown
SyntaxError, which the source catches).  Returns the outcome, or the
JavaScript error that escapes the gate, together with the rate limiter
state after the call (the check mutation persists even when a later step
throws). -/
def handleMessage (cfg : RateLimiterConfig) (parse : String → Except Unit Json)
    (handlers : List (String × MessageHandler)) (now : Int)
    (st : ClientState) (rawMessage : String) :
    Except JsError Outcome × ClientState :=
  let checked := check cfg now st
  let result := checked.1
  let st1 := checked.2
  if result.allowed = false then (.ok .rateLimited, st1)
  else
    match parse rawMessage with
    | .error _ => (.ok .invalidJson, st1)
    | .ok message =>
      match getField message "type" with
      | .error e => (.error e, st1)
      | .ok tfield =>
        match tfield with
        | some (.str s) =>
          if s = "" then (.ok .missingType, st1)
          else
            match handlers.lookup s with
            | none => (.ok (.unknownType s), st1)
            | some h =>
              match h message with
              | .ok _ => (.ok (.handled s), st1)
              | .error _ => (.ok (.handlerError s), st1)
        | _ => (.ok .missingType, st1)

/-- Model of JSON.parse restricted to the literal payloads used in the
concrete runs below: the text null parses to the JSON null value, and the
other payloads we feed it are not valid JSON, so parsing throws. -/
def jsonParseModel (s : String) : Except Unit Json :=
  if s = "null" then .ok .null else .error ()

/-- The call times of a sequence of check calls that were admitted,
collected by running the calls in order from a starting state. -/
def allowedTimes (cfg : RateLimiterConfig) : ClientState → List Int → List Int
  | _, [] => []
  | st, t :: ts =>
    let c := check cfg t st
    (cond c.1.allowed [t] []) ++ allowedTimes cfg c.2 ts

/-- Membership of a moment in the trailing half-open window ending at T. -/
def inWindow (cfg : RateLimiterConfig) (T : Int) (x : Int) : Bool :=
  decide (T - cfg.windowMs < x ∧ x ≤ T)

/-- The timestamp list check works on after block handling and trimming,
as seen from outside: empty after a cleared expired block, otherwise the
stored list trimmed to the window. -/
def effectiveRequests (cfg : RateLimiterConfig) (now : Int) (st : ClientState) :
    List Int :=
  trimRequests cfg now (if truthyTime st.blockedUntil then [] else st.requests)

/-! ### Basic facts about check -/

/-- When no block field is present, check goes straight to the windowed
decision. -/
theorem check_no_block (cfg : RateLimiterConfig) (now : Int) (st : ClientState)
    (h : st.blockedUntil = none) : check cfg now st = checkWindow cfg now st := by
  simp [check, h, truthyTime]

/-- If the window is full, checkWindow denies. -/
theorem checkWindow_denies_of_full (cfg : RateLimiterConfig) (now : Int) (st : ClientState)
    (h : ((trimRequests cfg now st.requests).length : Int) ≥ cfg.maxRequests) :
    (checkWindow cfg now st).1.allowed = false := by
  simp only [checkWindow, if_pos h]

/-- If the window is not full, checkWindow admits and appends now. -/
theorem checkWindow_allows_of_not_full (cfg : RateLimiterConfig) (now : Int) (st : ClientState)
    (h : ¬ ((trimRequests cfg now st.requests).length : Int) ≥ cfg.maxRequests) :
    checkWindow cfg now st =
      ({ allowed := true
         remaining := cfg.maxRequests - (trimRequests cfg now st.requests).length - 1
         resetMs := max 0 (((trimRequests cfg now st.requests).head?.getD now)
                      + cfg.windowMs - now)
         blocked := false },
       { requests := trimRequests cfg now st.requests ++ [now]
         blockedUntil := st.blockedUntil }) := by
  simp only [checkWindow, if_neg h]

/-- C9: with maxRequests = 0 every check call, for every client state and
every moment, is denied; the model of check is a total function with no
error outcome. -/
theorem check_maxRequests_zero_denies (cfg : RateLimiterConfig) (now : Int)
    (st : ClientState) (hmax : cfg.maxRequests = 0) :
    (check cfg now st).1.allowed = false := by
  have hcw : ∀ s : ClientState, (checkWindow cfg now s).1.allowed = false := by
    intro s
    apply checkWindow_denies_of_full
    rw [hmax]
    positivity
  simp only [check]
  split
  · rfl
  · split
    · exact hcw _
    · exact hcw _

/-- Witness for C9 at a concrete input. -/
theorem check_maxRequests_zero_denies_witness :
    (check ⟨0, 50, 0⟩ 0 ClientState.init).1.allowed = false :=
  check_maxRequests_zero_denies ⟨0, 50, 0⟩ 0 ClientState.init rfl

/-- C7: an active block (set, strictly in the future, at a nonnegative
current moment) makes check deny with remaining 0, resetMs equal to the
time to expiry and blocked true, and leaves the client state untouched. -/
theorem check_active_block_denies_and_frames (cfg : RateLimiterConfig) (now : Int)
    (st : ClientState) (bu : Int)
    (hbu : st.blockedUntil = some bu) (hnow : 0 ≤ now) (hfut : now < bu) :
    check cfg now st =
      ({ allowed := false, remaining := 0, resetMs := bu - now, blocked := true }, st) := by
  have hne : bu ≠ 0 := by omega
  simp only [check, hbu, truthyTime, Option.getD_some]
  rw [if_pos ⟨by simpa using hne, hfut⟩]

/-- Witness for C7 at a concrete input. -/
theorem check_active_block_denies_and_frames_witness :
    check ⟨1, 50, 100⟩ 5 ⟨[3], some 10⟩ =
      ({ allowed := false, remaining := 0, resetMs := 5, blocked := true },
       ⟨[3], some 10⟩) :=
  check_active_block_denies_and_frames ⟨1, 50, 100⟩ 5 ⟨[3], some 10⟩ 10 rfl
    (by decide) (by decide)

/-- C3 counterexample: under policy (1, 50, 100) the block is installed at
the denial at t=10 and lasts until t=110, so the call at t=105 is still
denied, against the claimed admission at t=105. -/
theorem scenario_block_expiry_counterexample :
    (check ⟨1, 50, 100⟩ 0 ClientState.init).1.allowed = true ∧
    (check ⟨1, 50, 100⟩ 10 (check ⟨1, 50, 100⟩ 0 ClientState.init).2).1 =
      { allowed := false, remaining := 0, resetMs := 100, blocked := true } ∧
    (check ⟨1, 50, 100⟩ 105
      (check ⟨1, 50, 100⟩ 10 (check ⟨1, 50, 100⟩ 0 ClientState.init).2).2).1.allowed
      = false := by
  decide

/-- C3 amended: t=0 admits; t=10 is denied with blocked true and
resetMs 100; t=105 is still inside the block set at t=10 and is denied
with blocked true and resetMs 5; t=110 admits against a fresh window. -/
theorem scenario_block_expiry_amended :
    (check ⟨1, 50, 100⟩ 0 ClientState.init).1.allowed = true ∧
    (check ⟨1, 50, 100⟩ 10 (check ⟨1, 50, 100⟩ 0 ClientState.init).2).1 =
      { allowed := false, remaining := 0, resetMs := 100, blocked := true } ∧
    (check ⟨1, 50, 100⟩ 105
      (check ⟨1, 50, 100⟩ 10 (check ⟨1, 50, 100⟩ 0 ClientState.init).2).2).1 =
      { allowed := false, remaining := 0, resetMs := 5, blocked := true } ∧
    (check ⟨1, 50, 100⟩ 110
      (check ⟨1, 50, 100⟩ 10 (check ⟨1, 50, 100⟩ 0 ClientState.init).2).2).1.allowed
      = true := by
  decide

/-- C2 counterexample: for a fresh client (empty pre-append sequence) the
admitted call returns resetMs = windowMs = 50, not 0, because the oldest
timestamp defaults to now. -/
theorem check_fresh_resetMs_counterexample :
    (check ⟨5, 50, 0⟩ 0 ClientState.init).1.allowed = true ∧
    ClientState.init.requests = [] ∧
    (check ⟨5, 50, 0⟩ 0 ClientState.init).1.resetMs = 50 ∧
    (check ⟨5, 50, 0⟩ 0 ClientState.init).1.resetMs ≠ 0 := by
  decide

/-- C2 amended: on an admitted call, resetMs is windowMs when the
(post-block-clearing, post-trim) sequence was empty before the append,
and (oldest + windowMs) - now when it was not. -/
theorem check_allowed_resetMs (cfg : RateLimiterConfig) (now : Int) (st : ClientState)
    (hW : 0 < cfg.windowMs)
    (hallow : (check cfg now st).1.allowed = true) :
    (effectiveRequests cfg now st = [] → (check cfg now st).1.resetMs = cfg.windowMs) ∧
    (∀ t0 rest, effectiveRequests cfg now st = t0 :: rest →
      (check cfg now st).1.resetMs = t0 + cfg.windowMs - now) := by
  have hcw : ∀ s : ClientState,
      checkWindow cfg now s = check cfg now st →
      trimRequests cfg now s.requests = effectiveRequests cfg now st →
      (effectiveRequests cfg now st = [] →
        (check cfg now st).1.resetMs = cfg.windowMs) ∧
      (∀ t0 rest, effectiveRequests cfg now st = t0 :: rest →
        (check cfg now st).1.resetMs = t0 + cfg.windowMs - now) := by
    intro s hs htrim
    by_cases hfull : ((trimRequests cfg now s.requests).length : Int) ≥ cfg.maxRequests
    · exfalso
      have := checkWindow_denies_of_full cfg now s hfull
      rw [hs, hallow] at this
      cases this
    · rw [← hs, checkWindow_allows_of_not_full cfg now s hfull]
      constructor
      · intro hempty
        rw [htrim, hempty]
        simp only [List.head?_nil, Option.getD_none]
        have h1 : now + cfg.windowMs - now = cfg.windowMs := by ring
        rw [h1, max_eq_right hW.le]
      · intro t0 rest hcons
        rw [htrim, hcons]
        simp only [List.head?_cons, Option.getD_some]
        have ht0 : now - cfg.windowMs < t0 := by
          have hmem : t0 ∈ effectiveRequests cfg now st := by
            rw [hcons]; exact List.mem_cons_self _ _
          rw [effectiveRequests, trimRequests] at hmem
          simpa using (List.mem_filter.mp hmem).2
        exact max_eq_right (by omega)
  by_cases h1 : (truthyTime st.blockedUntil ∧ now < st.blockedUntil.getD 0)
  · exfalso
    have : (check cfg now st).1.allowed = false := by
      simp only [check, if_pos h1]
    rw [hallow] at this
    cases this
  · by_cases h2 : truthyTime st.blockedUntil
    · apply hcw { requests := [], blockedUntil := none }
      · simp only [check, if_neg h1, if_pos h2]
      · simp [effectiveRequests, h2]
    · apply hcw st
      · simp only [check, if_neg h1]
        rw [if_neg h2]
      · simp [effectiveRequests, h2]

/-- Witness for C2's amended theorem at a concrete input: the fresh
client of the counterexample, whose effective sequence is empty. -/
theorem check_allowed_resetMs_witness :
    (check ⟨5, 50, 0⟩ 0 ClientState.init).1.resetMs = 50 :=
  (check_allowed_resetMs ⟨5, 50, 0⟩ 0 ClientState.init (by decide) (by decide)).1
    (by decide)

/-- C6: the counting window is half-open.  First part: a timestamp equal
to now - windowMs is dropped by the trim.  Second part: with no block
configured, a client denied at window-full (oldest trimmed timestamp t0)
is admitted again by a check made exactly at t0 + windowMs. -/
theorem window_halfOpen_readmit_at_edge :
    (∀ (cfg : RateLimiterConfig) (now : Int) (requests : List Int),
      (now - cfg.windowMs) ∉ trimRequests cfg now requests) ∧
    (∀ (cfg : RateLimiterConfig) (now t0 : Int) (rest : List Int) (st : ClientState),
      cfg.blockDurationMs = 0 → 0 < cfg.maxRequests →
      st.blockedUntil = none →
      (check cfg now st).1.allowed = false →
      (check cfg now st).2.requests = t0 :: rest →
      ((rest.length : Int) < cfg.maxRequests) →
      (check cfg (t0 + cfg.windowMs) (check cfg now st).2).1.allowed = true) := by
  constructor
  · intro cfg now requests h
    rw [trimRequests, List.mem_filter] at h
    simpa using h.2
  · intro cfg now t0 rest st hB hmax hbu hden hreq hrest
    have hbu2 : (check cfg now st).2.blockedUntil = none := by
      rw [check_no_block cfg now st hbu]
      simp only [checkWindow]
      split
      · simp [hB, hbu]
      · exact hbu
    rw [check_no_block cfg _ _ hbu2]
    have hlen : ((trimRequests cfg (t0 + cfg.windowMs)
        (check cfg now st).2.requests).length : Int) < cfg.maxRequests := by
      rw [hreq, trimRequests, List.filter_cons]
      rw [if_neg (by simp)]
      calc ((rest.filter fun ts =>
              decide (t0 + cfg.windowMs - cfg.windowMs < ts)).length : Int)
          ≤ (rest.length : Int) := by
            exact_mod_cast List.length_filter_le _ rest
        _ < cfg.maxRequests := hrest
    rw [checkWindow_allows_of_not_full cfg _ _ (by omega)]

/-- Witness for C6 at concrete inputs: policy (1, 50, 0); the moment
-50 = 0 - 50 is outside the window of a check at 0, and the client denied
at t=10 with oldest trimmed timestamp 0 is admitted again at t=50. -/
theorem window_halfOpen_readmit_at_edge_witness :
    ((-50 : Int)) ∉ trimRequests ⟨1, 50, 0⟩ 0 [-50, 1] ∧
    (check ⟨1, 50, 0⟩ (0 + (50 : Int))
      (check ⟨1, 50, 0⟩ 10 ⟨[0], none⟩).2).1.allowed = true :=
  ⟨window_halfOpen_readmit_at_edge.1 ⟨1, 50, 0⟩ 0 [-50, 1],
   window_halfOpen_readmit_at_edge.2 ⟨1, 50, 0⟩ 10 0 [] ⟨[0], none⟩ rfl (by decide)
     rfl (by decide) (by decide) (by decide)⟩

/-- C5 counterexample: consume appends without trimming, so immediately
after consume at now = 1000 (window 50) the sequence still holds the
timestamp 0, which is older than now - windowMs = 950. -/
theorem consume_keeps_stale_counterexample :
    (0 : Int) ∈ (consume 1000 (check ⟨5, 50, 0⟩ 0 ClientState.init).2).requests ∧
    (0 : Int) ≤ 1000 - 50 := by
  decide

/-- C5 amended: the freshness invariant holds after check whenever check
touches the sequence (that is, except on the untouched active-block early
return), and after cleanup for every surviving entry; consume is excluded
since it appends without trimming. -/
theorem touched_requests_inside_window :
    (∀ (cfg : RateLimiterConfig) (now : Int) (st : ClientState),
      0 < cfg.windowMs →
      ¬ (truthyTime st.blockedUntil ∧ now < st.blockedUntil.getD 0) →
      ∀ ts ∈ (check cfg now st).2.requests, now - cfg.windowMs < ts) ∧
    (∀ (cfg : RateLimiterConfig) (now : Int) (clients : List (String × ClientState))
      (cid : String) (st : ClientState),
      (cid, st) ∈ cleanup cfg now clients →
      ∀ ts ∈ st.requests, now - cfg.windowMs < ts) := by
  have hcw : ∀ (cfg : RateLimiterConfig) (now : Int) (s : ClientState),
      0 < cfg.windowMs →
      ∀ ts ∈ (checkWindow cfg now s).2.requests, now - cfg.windowMs < ts := by
    intro cfg now s hW ts hts
    by_cases hfull : ((trimRequests cfg now s.requests).length : Int) ≥ cfg.maxRequests
    · rw [show (checkWindow cfg now s).2
          = { requests := trimRequests cfg now s.requests
              blockedUntil := if 0 < cfg.blockDurationMs
                then some (now + cfg.blockDurationMs) else s.blockedUntil }
          from by simp only [checkWindow, if_pos hfull]] at hts
      simp only [trimRequests, List.mem_filter] at hts
      simpa using hts.2
    · rw [checkWindow_allows_of_not_full cfg now s hfull] at hts
      simp only [List.mem_append, List.mem_singleton, trimRequests,
        List.mem_filter] at hts
      rcases hts with h | h
      · simpa using h.2
      · omega
  constructor
  · intro cfg now st hW hnotblk ts hts
    simp only [check, if_neg hnotblk] at hts
    by_cases h2 : truthyTime st.blockedUntil
    · rw [if_pos h2] at hts
      exact hcw cfg now _ hW ts hts
    · rw [if_neg h2] at hts
      exact hcw cfg now st hW ts hts
  · intro cfg now clients cid st hmem ts hts
    rw [cleanup, List.mem_filterMap] at hmem
    obtain ⟨e, _, he⟩ := hmem
    rw [Option.map_eq_some'] at he
    obtain ⟨s, hs, hpair⟩ := he
    have hst : st = s := by
      have := congrArg Prod.snd hpair
      simpa using this.symm
    subst hst
    simp only [sweepClient] at hs
    split at hs
    · split at hs
      · cases hs
      · cases hs
        simp only [trimRequests, List.mem_filter] at hts
        simpa using hts.2
    · split at hs
      · cases hs
      · cases hs
        simp only [trimRequests, List.mem_filter] at hts
        simpa using hts.2

/-- Witness for C5's amended theorem at a concrete input: after the
admitted check at now = 0 under window 50 the appended timestamp 0
satisfies 0 - 50 < 0. -/
theorem touched_requests_inside_window_witness :
    (0 : Int) - 50 < 0 :=
  touched_requests_inside_window.1 ⟨5, 50, 0⟩ 0 ClientState.init (by decide)
    (by decide) 0 (by decide)

/-- Looking a key up after a key-preserving filterMap yields nothing when
the key is not tracked. -/
theorem lookup_filterMap_keyed_none (f : ClientState → Option ClientState) :
    ∀ (l : List (String × ClientState)) (cid : String),
      cid ∉ l.map Prod.fst →
      (l.filterMap fun e => (f e.2).map fun s => (e.1, s)).lookup cid = none := by
  intro l
  induction l with
  | nil => intro cid _; rfl
  | cons e tl ih =>
    intro cid h
    simp only [List.map_cons, List.mem_cons] at h
    push_neg at h
    obtain ⟨h1, h2⟩ := h
    have hbeq : (cid == e.1) = false := beq_eq_false_iff_ne.mpr h1
    cases hf : f e.2 with
    | none =>
      rw [List.filterMap_cons_none (by simp [hf])]
      exact ih cid h2
    | some s =>
      have hstep : (List.filterMap (fun e => Option.map (fun s => (e.1, s)) (f e.2))
            (e :: tl))
          = (e.1, s) :: List.filterMap (fun e => Option.map (fun s => (e.1, s)) (f e.2)) tl :=
        List.filterMap_cons_some (by simp [hf])
      rw [hstep]
      simp only [List.lookup_cons, hbeq]
      exact ih cid h2

/-- Looking a tracked key up after a key-preserving filterMap yields
exactly the image of its old value. -/
theorem lookup_filterMap_keyed (f : ClientState → Option ClientState) :
    ∀ (l : List (String × ClientState)) (cid : String) (st : ClientState),
      (l.map Prod.fst).Nodup →
      l.lookup cid = some st →
      (l.filterMap fun e => (f e.2).map fun s => (e.1, s)).lookup cid = f st := by
  intro l
  induction l with
  | nil => intro cid st _ h; cases h
  | cons e tl ih =>
    obtain ⟨k, v⟩ := e
    intro cid st hnodup hlook
    simp only [List.map_cons, List.nodup_cons] at hnodup
    obtain ⟨hk, hnd⟩ := hnodup
    by_cases hc : cid = k
    · subst hc
      simp only [List.lookup_cons, beq_self_eq_true] at hlook
      have hv : v = st := by cases hlook; rfl
      subst hv
      cases hf : f v with
      | none =>
        have hstep0 : (List.filterMap (fun e => Option.map (fun s => (e.1, s)) (f e.2))
              ((cid, v) :: tl))
            = List.filterMap (fun e => Option.map (fun s => (e.1, s)) (f e.2)) tl :=
          List.filterMap_cons_none (by simp [hf])
        rw [hstep0]
        exact lookup_filterMap_keyed_none f tl cid hk
      | some s =>
        have hstep : (List.filterMap (fun e => Option.map (fun s => (e.1, s)) (f e.2))
              ((cid, v) :: tl))
            = (cid, s) :: List.filterMap (fun e => Option.map (fun s => (e.1, s)) (f e.2)) tl :=
          List.filterMap_cons_some (by simp [hf])
        rw [hstep]
        simp only [List.lookup_cons, beq_self_eq_true]
    · have hbeq : (cid == k) = false := beq_eq_false_iff_ne.mpr hc
      simp only [List.lookup_cons, hbeq] at hlook
      cases hf : f v with
      | none =>
        have hstep0 : (List.filterMap (fun e => Option.map (fun s => (e.1, s)) (f e.2))
              ((k, v) :: tl))
            = List.filterMap (fun e => Option.map (fun s => (e.1, s)) (f e.2)) tl :=
          List.filterMap_cons_none (by simp [hf])
        rw [hstep0]
        exact ih cid st hnd hlook
      | some s =>
        have hstep : (List.filterMap (fun e => Option.map (fun s => (e.1, s)) (f e.2))
              ((k, v) :: tl))
            = (k, s) :: List.filterMap (fun e => Option.map (fun s => (e.1, s)) (f e.2)) tl :=
          List.filterMap_cons_some (by simp [hf])
        rw [hstep]
        simp only [List.lookup_cons, hbeq]
        exact ih cid st hnd hlook

/-- sweepClient drops a client exactly when the trimmed timestamp list is
empty and no block moment lies strictly in the future (for a nonnegative
current moment, where JavaScript truthiness of the block field cannot
misfire). -/
theorem sweepClient_eq_none_iff (cfg : RateLimiterConfig) (now : Int) (st : ClientState)
    (hnow : 0 ≤ now) :
    (sweepClient cfg now st = none ↔
      (trimRequests cfg now st.requests = [] ∧
       ∀ bu, st.blockedUntil = some bu → ¬ now < bu)) := by
  rcases hscrut : st.blockedUntil with _ | b
  · have hval : sweepClient cfg now st =
        if trimRequests cfg now st.requests = [] then none
        else some ⟨trimRequests cfg now st.requests, none⟩ := by
      simp [sweepClient, hscrut, truthyTime, List.length_eq_zero]
    rw [hval]
    split
    · rename_i hc
      constructor
      · intro _; exact ⟨hc, fun bu hbu => by cases hbu⟩
      · intro _; rfl
    · rename_i hc
      constructor
      · intro h; cases h
      · intro h; exact absurd h.1 hc
  · by_cases hb0 : b = 0
    · subst hb0
      have hval : sweepClient cfg now st =
          if trimRequests cfg now st.requests = [] then none
          else some ⟨trimRequests cfg now st.requests, some 0⟩ := by
        simp [sweepClient, hscrut, truthyTime, List.length_eq_zero]
      rw [hval]
      split
      · rename_i hc
        constructor
        · intro _
          refine ⟨hc, fun bu hbu => ?_⟩
          have hbu0 : bu = 0 := by cases hbu; rfl
          omega
        · intro _; rfl
      · rename_i hc
        constructor
        · intro h; cases h
        · intro h; exact absurd h.1 hc
    · have htr : truthyTime (some b) = true := by simp [truthyTime, hb0]
      by_cases hble : b ≤ now
      · have hval : sweepClient cfg now st =
            if trimRequests cfg now st.requests = [] then none
            else some ⟨trimRequests cfg now st.requests, none⟩ := by
          simp [sweepClient, hscrut, htr, hb0, hble, truthyTime, List.length_eq_zero]
        rw [hval]
        split
        · rename_i hc
          constructor
          · intro _
            refine ⟨hc, fun bu hbu => ?_⟩
            have hbub : bu = b := by cases hbu; rfl
            omega
          · intro _; rfl
        · rename_i hc
          constructor
          · intro h; cases h
          · intro h; exact absurd h.1 hc
      · have hval : sweepClient cfg now st =
            some ⟨trimRequests cfg now st.requests, some b⟩ := by
          simp [sweepClient, hscrut, htr, hb0, hble, truthyTime, List.length_eq_zero]
        rw [hval]
        constructor
        · intro h; cases h
        · intro h
          have := h.2 b rfl
          omega

/-- C8: after a cleanup pass at a nonnegative moment, a tracked client's
entry is absent exactly when the client had no timestamp inside the
half-open window and no block moment strictly in the future; every other
tracked entry survives.  Timestamps are assumed not to lie in the future,
as produced by a monotone clock. -/
theorem cleanup_removes_entry_iff (cfg : RateLimiterConfig) (now : Int)
    (clients : List (String × ClientState)) (cid : String) (st : ClientState)
    (hnodup : (clients.map Prod.fst).Nodup)
    (hlook : clients.lookup cid = some st)
    (hnow : 0 ≤ now)
    (hpast : ∀ ts ∈ st.requests, ts ≤ now) :
    ((cleanup cfg now clients).lookup cid = none ↔
      ((∀ ts ∈ st.requests, ¬ (now - cfg.windowMs < ts ∧ ts ≤ now)) ∧
       ∀ bu, st.blockedUntil = some bu → ¬ now < bu)) := by
  rw [cleanup, lookup_filterMap_keyed (sweepClient cfg now) clients cid st hnodup hlook]
  rw [sweepClient_eq_none_iff cfg now st hnow]
  have hreq : trimRequests cfg now st.requests = [] ↔
      ∀ ts ∈ st.requests, ¬ (now - cfg.windowMs < ts ∧ ts ≤ now) := by
    rw [trimRequests, List.filter_eq_nil_iff]
    constructor
    · intro h ts hts hcon
      exact h ts hts (by simpa using hcon.1)
    · intro h ts hts hdec
      exact h ts hts ⟨by simpa using hdec, hpast ts hts⟩
  rw [hreq]

/-- Witness for C8 at a concrete input: the sole tracked client has only
the stale timestamp 0 at sweep time 100 under window 50 and no block, so
its entry is removed. -/
theorem cleanup_removes_entry_iff_witness :
    (cleanup ⟨5, 50, 0⟩ 100 [("a", ⟨[0], none⟩)]).lookup "a" = none :=
  (cleanup_removes_entry_iff ⟨5, 50, 0⟩ 100 [("a", ⟨[0], none⟩)] "a" ⟨[0], none⟩
      (by decide) rfl (by decide) (by decide)).mpr
    ⟨by decide, fun bu hbu => Option.noConfusion hbu⟩

/-- C4 failing input: with quota available, a raw payload whose JSON parse
succeeds with the null value makes handleMessage read the type property
of null, and the resulting TypeError escapes the gate instead of being
recovered. -/
theorem handleMessage_null_payload_throws :
    (handleMessage ⟨5, 50, 0⟩ jsonParseModel [] 0 ClientState.init "null").1 =
      Except.error JsError.typeError := rfl

/-- Supporting fact for C4: the null payload is the only escape.  For any
parse result other than JSON null (and any handlers, any client state),
handleMessage returns an outcome and no error propagates. -/
theorem handleMessage_ok_of_parse_ne_null (cfg : RateLimiterConfig)
    (parse : String → Except Unit Json) (handlers : List (String × MessageHandler))
    (now : Int) (st : ClientState) (raw : String)
    (hnn : parse raw ≠ Except.ok Json.null) :
    (handleMessage cfg parse handlers now st raw).1.isOk = true := by
  rw [handleMessage]
  by_cases hallow : (check cfg now st).1.allowed = false
  · simp only [hallow, if_pos]
    rfl
  · simp only [hallow, if_neg, if_false, Bool.false_eq_true]
    cases hp : parse raw with
    | error e => rfl
    | ok message =>
      cases message with
      | null => exact absurd hp hnn
      | bool b => rfl
      | num n => rfl
      | str s => rfl
      | arr elems => rfl
      | obj fields =>
        simp only [getField]
        cases hl : fields.lookup "type" with
        | none => rfl
        | some j =>
          cases j with
          | null => rfl
          | bool b => rfl
          | num n => rfl
          | str s =>
            by_cases hs : s = ""
            · simp only [hs, if_pos]
              rfl
            · simp only [if_neg hs]
              cases hh : handlers.lookup s with
              | none => rfl
              | some h =>
                cases hr : h (Json.obj fields) with
                | ok u => simp [hr, Except.isOk, Except.toBool]
                | error msg => simp [hr, Except.isOk, Except.toBool]
          | arr elems => rfl
          | obj fields2 => rfl

/-- On an admitted call the new stored sequence is the trimmed effective
sequence with now appended. -/
theorem check_allowed_appends (cfg : RateLimiterConfig) (now : Int) (st : ClientState)
    (hallow : (check cfg now st).1.allowed = true) :
    (check cfg now st).2.requests = effectiveRequests cfg now st ++ [now] := by
  have hcw : ∀ s : ClientState,
      checkWindow cfg now s = check cfg now st →
      trimRequests cfg now s.requests = effectiveRequests cfg now st →
      (check cfg now st).2.requests = effectiveRequests cfg now st ++ [now] := by
    intro s hs htrim
    by_cases hfull : ((trimRequests cfg now s.requests).length : Int) ≥ cfg.maxRequests
    · exfalso
      have := checkWindow_denies_of_full cfg now s hfull
      rw [hs, hallow] at this
      cases this
    · rw [← hs, checkWindow_allows_of_not_full cfg now s hfull]
      rw [htrim]
  by_cases h1 : (truthyTime st.blockedUntil ∧ now < st.blockedUntil.getD 0)
  · exfalso
    have : (check cfg now st).1.allowed = false := by
      simp only [check, if_pos h1]
    rw [hallow] at this
    cases this
  · by_cases h2 : truthyTime st.blockedUntil
    · apply hcw { requests := [], blockedUntil := none }
      · simp only [check, if_neg h1, if_pos h2]
      · simp [effectiveRequests, h2]
    · apply hcw st
      · simp only [check, if_neg h1]
        rw [if_neg h2]
      · simp [effectiveRequests, h2]

/-- C10: when the admission check of a handleMessage call admits, the
request slot is consumed; the rate limiter state after handleMessage is
exactly the post-check state, for every raw payload (valid or not, typed
or not, known or not), and that state has now appended to the timestamp
sequence. -/
theorem handleMessage_allowed_consumes_slot (cfg : RateLimiterConfig)
    (parse : String → Except Unit Json) (handlers : List (String × MessageHandler))
    (now : Int) (st : ClientState) (raw : String)
    (hallow : (check cfg now st).1.allowed = true) :
    (handleMessage cfg parse handlers now st raw).2 = (check cfg now st).2 ∧
    (check cfg now st).2.requests = effectiveRequests cfg now st ++ [now] := by
  refine ⟨?_, check_allowed_appends cfg now st hallow⟩
  rw [handleMessage]
  rw [if_neg (by simp [hallow])]
  cases hp : parse raw with
  | error e => rfl
  | ok message =>
    cases message with
    | null => rfl
    | bool b => rfl
    | num n => rfl
    | str s => rfl
    | arr elems => rfl
    | obj fields =>
      simp only [getField]
      cases hl : fields.lookup "type" with
      | none => rfl
      | some j =>
        cases j with
        | null => rfl
        | bool b => rfl
        | num n => rfl
        | arr elems => rfl
        | obj fields2 => rfl
        | str s =>
          by_cases hs : s = ""
          · simp [hs]
          · simp only [if_neg hs]
            cases hh : handlers.lookup s with
            | none => rfl
            | some h =>
              cases hr : h (Json.obj fields) with
              | ok u => simp [hr]
              | error msg => simp [hr]

/-- Witness for C10 at a concrete input: a fresh client and the null
payload of the C4 failing input; the slot is consumed even though the
gate then faults. -/
theorem handleMessage_allowed_consumes_slot_witness :
    (handleMessage ⟨5, 50, 0⟩ jsonParseModel [] 0 ClientState.init "null").2 =
      (check ⟨5, 50, 0⟩ 0 ClientState.init).2 :=
  (handleMessage_allowed_consumes_slot ⟨5, 50, 0⟩ jsonParseModel [] 0
    ClientState.init "null" (by decide)).1

/-- C1 counterexample: policy (1, 100, 1) has positive maxRequests and
windowMs; the block set at the denial at t=1 expires before t=3 and
clears the history, so the admitted calls at 0 and 3 both lie in the
trailing window ending at 3, exceeding maxRequests = 1. -/
theorem allowedTimes_window_bound_counterexample :
    (0 : Int) < (⟨1, 100, 1⟩ : RateLimiterConfig).maxRequests ∧
    (0 : Int) < (⟨1, 100, 1⟩ : RateLimiterConfig).windowMs ∧
    List.Chain' (· ≤ ·) [(0 : Int), 1, 3] ∧
    (((allowedTimes ⟨1, 100, 1⟩ ClientState.init [0, 1, 3]).filter
        (inWindow ⟨1, 100, 1⟩ 3)).length : Int) >
      (⟨1, 100, 1⟩ : RateLimiterConfig).maxRequests := by
  refine ⟨by decide, by decide, ?_, by decide⟩
  exact List.chain'_cons.mpr ⟨by norm_num,
    List.chain'_cons.mpr ⟨by norm_num, List.chain'_singleton _⟩⟩

/-- Inductive step for C1: running checks with no block configured, from
a state whose stored list is the window trim of the already admitted
times, keeps every trailing window below the quota. -/
theorem allowedTimes_bound_aux (cfg : RateLimiterConfig)
    (hW : 0 < cfg.windowMs) (hB : cfg.blockDurationMs = 0) :
    ∀ (ts : List Int) (st : ClientState) (prior : List Int) (tPrev : Int),
      st.blockedUntil = none →
      st.requests = prior.filter (fun x => decide (tPrev - cfg.windowMs < x)) →
      (∀ T : Int, ((prior.filter (inWindow cfg T)).length : Int) ≤ cfg.maxRequests) →
      List.Chain' (· ≤ ·) (tPrev :: ts) →
      ∀ T : Int,
        (((prior ++ allowedTimes cfg st ts).filter (inWindow cfg T)).length : Int) ≤
          cfg.maxRequests := by
  intro ts
  induction ts with
  | nil =>
    intro st prior tPrev _ _ hbound _ T
    simpa [allowedTimes] using hbound T
  | cons t ts ih =>
    intro st prior tPrev hbu hreq hbound hchain T
    have htle : tPrev ≤ t := (List.chain'_cons.mp hchain).1
    have hchain2 : List.Chain' (· ≤ ·) (t :: ts) := (List.chain'_cons.mp hchain).2
    have htrim : trimRequests cfg t st.requests
        = prior.filter (fun x => decide (t - cfg.windowMs < x)) := by
      rw [hreq, trimRequests, List.filter_filter]
      apply List.filter_congr
      intro a _
      by_cases ha : t - cfg.windowMs < a
      · have h2 : tPrev - cfg.windowMs < a := by omega
        simp [ha, h2]
      · simp [ha]
    have hcheck : check cfg t st = checkWindow cfg t st := check_no_block cfg t st hbu
    simp only [allowedTimes]
    by_cases hfull : ((trimRequests cfg t st.requests).length : Int) ≥ cfg.maxRequests
    · have hall : (check cfg t st).1.allowed = false := by
        rw [hcheck]
        exact checkWindow_denies_of_full cfg t st hfull
      have hsnd : (check cfg t st).2 =
          ⟨prior.filter (fun x => decide (t - cfg.windowMs < x)), none⟩ := by
        rw [hcheck]
        simp only [checkWindow, if_pos hfull]
        rw [hB, htrim, hbu]
        simp
      rw [hall, hsnd]
      simp only [Bool.cond_false, List.nil_append]
      exact ih _ prior t rfl rfl hbound hchain2 T
    · have hall : (check cfg t st).1.allowed = true := by
        rw [hcheck, checkWindow_allows_of_not_full cfg t st hfull]
      have hsnd : (check cfg t st).2 =
          ⟨prior.filter (fun x => decide (t - cfg.windowMs < x)) ++ [t], none⟩ := by
        rw [hcheck, checkWindow_allows_of_not_full cfg t st hfull]
        rw [htrim, hbu]
      rw [hall, hsnd]
      simp only [Bool.cond_true]
      rw [show prior ++ ([t] ++ allowedTimes cfg ⟨prior.filter
            (fun x => decide (t - cfg.windowMs < x)) ++ [t], none⟩ ts)
          = (prior ++ [t]) ++ allowedTimes cfg ⟨prior.filter
            (fun x => decide (t - cfg.windowMs < x)) ++ [t], none⟩ ts from by
        rw [List.append_assoc]]
      apply ih _ (prior ++ [t]) t rfl
      · rw [List.filter_append]
        simp [show t - cfg.windowMs < t from by omega]
      · intro U
        rw [List.filter_append, List.length_append]
        by_cases hmem : inWindow cfg U t = true
        · have hm : U - cfg.windowMs < t ∧ t ≤ U := by
            simpa [inWindow] using hmem
          have h1 : ([t].filter (inWindow cfg U)).length = 1 := by
            simp [hmem]
          rw [h1]
          have hsub : (prior.filter (inWindow cfg U)).length ≤
              (prior.filter (fun x => decide (t - cfg.windowMs < x))).length := by
            apply List.Sublist.length_le
            apply List.monotone_filter_right
            intro a ha
            simp only [inWindow, decide_eq_true_eq] at ha ⊢
            omega
          have hlt : ((prior.filter
              (fun x => decide (t - cfg.windowMs < x))).length : Int) <
              cfg.maxRequests := by
            rw [htrim] at hfull
            omega
          push_cast
          omega
        · have hmf : inWindow cfg U t = false := by
            revert hmem
            cases inWindow cfg U t <;> simp
          have h1 : ([t].filter (inWindow cfg U)).length = 0 := by
            simp [hmf]
          rw [h1]
          have := hbound U
          push_cast
          push_cast at this
          omega
      · exact hchain2

/-- C1 amended: for a policy with positive maxRequests and windowMs and
blockDurationMs = 0 (so no history-clearing block expiry can occur), over
any nondecreasing sequence of call times from a fresh client, the number
of admitted calls whose times lie in any trailing half-open window never
exceeds maxRequests. -/
theorem allowedTimes_window_bound (cfg : RateLimiterConfig) (times : List Int)
    (hmax : 0 < cfg.maxRequests) (hW : 0 < cfg.windowMs)
    (hB : cfg.blockDurationMs = 0)
    (hmono : List.Chain' (· ≤ ·) times) (T : Int) :
    (((allowedTimes cfg ClientState.init times).filter (inWindow cfg T)).length : Int) ≤
      cfg.maxRequests := by
  cases times with
  | nil => simpa [allowedTimes] using hmax.le
  | cons t ts =>
    have h := allowedTimes_bound_aux cfg hW hB (t :: ts) ClientState.init [] t rfl
      (by simp [ClientState.init]) (fun U => by simpa using hmax.le)
      (List.chain'_cons.mpr ⟨le_refl t, hmono⟩) T
    simpa using h

/-- Witness for C1's amended theorem at a concrete input: policy
(2, 100, 0), calls at 0, 10, 20, window ending at 20. -/
theorem allowedTimes_window_bound_witness :
    (((allowedTimes ⟨2, 100, 0⟩ ClientState.init [0, 10, 20]).filter
        (inWindow ⟨2, 100, 0⟩ 20)).length : Int) ≤ 2 :=
  allowedTimes_window_bound ⟨2, 100, 0⟩ [0, 10, 20] (by decide) (by decide) rfl
    (List.chain'_cons.mpr ⟨by norm_num,
      List.chain'_cons.mpr ⟨by norm_num, List.chain'_singleton _⟩⟩) 20
